import Mathlib

/-!
Shallow embedding of the note-management core of `src/api/webhook.py`
(a Telegram note bot).  The Python store is

  user_data = { 'notes': {user_id_str: [note, ...]}, 'settings': {user_id_str: {'next_note_id': n}} }

Modelling conventions:
* Python `str` values (titles, contents, categories, queries, message text)
  are modelled as `List Char`; `str.lower()` is `List.map Char.toLower`
  (the data exercised by the claims is ASCII, where the two agree).
* Python dicts keyed by `str(user_id)` are modelled as association lists
  keyed by `Nat` (the `str` conversion of distinct ints is injective, so
  keying by the int itself is faithful).
* `created_at` is stored as `datetime.now().isoformat()` and compared after
  `datetime.fromisoformat`; ISO-8601 instants are totally ordered and the
  parse is monotone, so the timestamp is modelled as a `Nat` supplied by the
  caller (the clock is threaded as an explicit argument).
* Python's `sorted(..., key=..., reverse=True)` is a stable descending sort;
  it is modelled by `List.insertionSort` with the relation
  `byCreatedDesc a b := b.created_at ≤ a.created_at`, which is likewise a
  stable descending sort (ties keep their original relative order).
* In-place dict/list mutation becomes explicit state passing on `Store`.
-/

/-- Python `s.startswith(p)` on lists of characters: `startsWith p s` is
`true` iff `p` is an initial segment of `s`. -/
def startsWith : List Char → List Char → Bool
  | [], _ => true
  | _ :: _, [] => false
  | a :: p, b :: s => a == b && startsWith p s

/-- Python's substring test `q in s` (`subStr q s = true` iff `q` occurs
contiguously in `s`; the empty `q` occurs in every string, as in Python). -/
def subStr (q : List Char) : List Char → Bool
  | [] => q.isEmpty
  | c :: rest => startsWith q (c :: rest) || subStr q rest

/-- Python `str.lower()` (ASCII case mapping, which is what the claims use). -/
def lower (s : List Char) : List Char :=
  s.map Char.toLower

/-- ASCII whitespace recognised by Python `str.strip()`. -/
def isPySpace (c : Char) : Bool :=
  c == ' ' || c == '\t' || c == '\n' || c == '\r' || c == '\x0b' || c == '\x0c'

/-- Python `str.strip()`: drop whitespace from both ends. -/
def stripText (s : List Char) : List Char :=
  ((s.dropWhile isPySpace).reverse.dropWhile isPySpace).reverse

/-- Python `line.split(':', 1)[1]`, in the callers guaranteed to be applied
to a line containing a colon: everything after the first `':'`. -/
def afterColon (line : List Char) : List Char :=
  (line.dropWhile (fun c => !(c == ':'))).drop 1

/-- A note record, `webhook.py` lines 74-80. -/
structure Note where
  title : List Char
  content : List Char
  category : List Char
  created_at : Nat
  note_id : Nat
deriving DecidableEq

/-- First binding of a key in an association list (Python dict read). -/
def alGet (k : Nat) : List (Nat × α) → Option α
  | [] => none
  | (k', v) :: rest => if k' = k then some v else alGet k rest

/-- Write a key in an association list (Python dict assignment): replaces the
binding if present, appends it otherwise. -/
def alSet (k : Nat) (v : α) : List (Nat × α) → List (Nat × α)
  | [] => [(k, v)]
  | (k', v') :: rest => if k' = k then (k, v) :: rest else (k', v') :: alSet k v rest

/-- The global `user_data` dictionary: per-user note lists and per-user
settings (the settings dict of a user only carries `next_note_id`). -/
structure Store where
  notes : List (Nat × List Note)
  settings : List (Nat × Nat)
deriving DecidableEq

/-- The initial store, `user_data = {'notes': {}, 'settings': {}}`. -/
def emptyStore : Store :=
  { notes := [], settings := [] }

/-- The raw stored note list of a user, `user_data['notes'].get(uid, [])`. -/
def notesOf (st : Store) (u : Nat) : List Note :=
  (alGet u st.notes).getD []

/-- The user's `next_note_id` counter as `add_user_note` would read it
(absent settings behave like the freshly initialised `{'next_note_id': 1}`). -/
def nextIdOf (st : Store) (u : Nat) : Nat :=
  (alGet u st.settings).getD 1

/-- Descending creation-time order used by every listing (`reverse=True`). -/
def byCreatedDesc (a b : Note) : Prop :=
  b.created_at ≤ a.created_at

instance : DecidableRel byCreatedDesc :=
  fun a b => Nat.decLe b.created_at a.created_at

instance : IsTotal Note byCreatedDesc :=
  ⟨fun a b => Nat.le_total b.created_at a.created_at⟩

instance : IsTrans Note byCreatedDesc :=
  ⟨fun _ _ _ h1 h2 => Nat.le_trans h2 h1⟩

/-- `get_user_notes` (lines 56-61): the user's notes sorted by `created_at`
descending with Python's stable `sorted`. -/
def get_user_notes (st : Store) (u : Nat) : List Note :=
  List.insertionSort byCreatedDesc (notesOf st u)

/-- `add_user_note` (lines 63-83): lazily create the user's note list and
settings, allocate `note_id` from `next_note_id`, bump the counter, append
the new note.  `now` is the threaded clock; returns the new state and the
allocated id. -/
def add_user_note (st : Store) (u : Nat) (title content category : List Char)
    (now : Nat) : Store × Nat :=
  let notes1 := match alGet u st.notes with
    | some _ => st.notes
    | none => alSet u [] st.notes
  let settings1 := match alGet u st.settings with
    | some _ => st.settings
    | none => alSet u 1 st.settings
  let note_id := (alGet u settings1).getD 1
  let settings2 := alSet u (note_id + 1) settings1
  let note : Note :=
    { title := title, content := content, category := category
      created_at := now, note_id := note_id }
  let notes2 := alSet u (((alGet u notes1).getD []) ++ [note]) notes1
  ({ notes := notes2, settings := settings2 }, note_id)

/-- `delete_user_note` (lines 85-93): filter out every note with the given
id, report success iff the list shrank. -/
def delete_user_note (st : Store) (u note_id : Nat) : Store × Bool :=
  match alGet u st.notes with
  | none => (st, false)
  | some ns =>
    let ns' := ns.filter (fun n => !(n.note_id == note_id))
    ({ st with notes := alSet u ns' st.notes }, decide (ns'.length < ns.length))

/-- `get_user_note` (lines 95-101): first note with the given id, if any. -/
def get_user_note (st : Store) (u note_id : Nat) : Option Note :=
  match alGet u st.notes with
  | none => none
  | some ns => ns.find? (fun n => n.note_id == note_id)

/-- The in-place loop of `update_user_note_category` (lines 106-110): change
the category of the first note with the given id; report whether one was
found. -/
def updateFirstCat (note_id : Nat) (c : List Char) : List Note → List Note × Bool
  | [] => ([], false)
  | n :: rest =>
    if n.note_id = note_id then ({ n with category := c } :: rest, true)
    else
      let r := updateFirstCat note_id c rest
      (n :: r.1, r.2)

/-- `update_user_note_category` (lines 103-111). -/
def update_user_note_category (st : Store) (u note_id : Nat) (c : List Char) :
    Store × Bool :=
  match alGet u st.notes with
  | none => (st, false)
  | some ns =>
    let r := updateFirstCat note_id c ns
    ({ st with notes := alSet u r.1 st.notes }, r.2)

/-- The match predicate of `search_user_notes` (lines 120-122): lower-cased
query occurs in the lower-cased title, content or category. -/
def searchMatch (q : List Char) (n : Note) : Bool :=
  subStr q (lower n.title) || subStr q (lower n.content) || subStr q (lower n.category)

/-- `search_user_notes` (lines 113-124): filter by `searchMatch` on the
lower-cased query, then sort by `created_at` descending. -/
def search_user_notes (st : Store) (u : Nat) (query : List Char) : List Note :=
  match alGet u st.notes with
  | none => []
  | some ns =>
    List.insertionSort byCreatedDesc (ns.filter (searchMatch (lower query)))

/-- The store effect of `clear_command_handler` (lines 679-694): only when
the user's note list exists and is non-empty (Python truthiness), empty it
and, when a settings entry exists, reset `next_note_id` to 1. -/
def clear_command_handler (st : Store) (u : Nat) : Store :=
  match alGet u st.notes with
  | none => st
  | some ns =>
    if ns.isEmpty then st
    else
      let notes' := alSet u [] st.notes
      let settings' := match alGet u st.settings with
        | some _ => alSet u 1 st.settings
        | none => st.settings
      { notes := notes', settings := settings' }

/-- Pagination page size, `NOTES_PER_PAGE = 5` (line 53). -/
def NOTES_PER_PAGE : Nat := 5

/-- `total_pages = (len(all_notes) + NOTES_PER_PAGE - 1) // NOTES_PER_PAGE`
(line 369, identically line 421). -/
def total_pages (n : Nat) : Nat :=
  (n + NOTES_PER_PAGE - 1) / NOTES_PER_PAGE

/-- `current_page = max(0, min(page, total_pages - 1))` (line 370); the
requested page is a Python `int`, hence `Int` here. -/
def clamp_page (page : Int) (tp : Nat) : Nat :=
  (max 0 (min page ((tp : Int) - 1))).toNat

/-- The page slice `all_notes[start_index:end_index]` of
`send_notes_page_handler` (lines 369-373) and
`send_search_results_page_handler` (lines 421-425). -/
def paginate (notes : List Note) (page : Int) : List Note :=
  let tp := total_pages notes.length
  let current := clamp_page page tp
  (notes.drop (current * NOTES_PER_PAGE)).take NOTES_PER_PAGE

/-- Recognised keys of the note-creation text mini-format (lines 276-280);
each line is tested lower-cased. -/
def keyTitle : List Char := ['t', 'i', 't', 'l', 'e', ':']

/-- See `keyTitle`. -/
def keyCategory : List Char := ['c', 'a', 't', 'e', 'g', 'o', 'r', 'y', ':']

/-- See `keyTitle`. -/
def keyContent : List Char := ['c', 'o', 'n', 't', 'e', 'n', 't', ':']

/-- The loop state of the mini-format parser in `handle_message_handler`
(lines 266-287): `title`, `category`, `content`, the buffer
`parsed_content_lines` and the flag `is_content_explicitly_set`. -/
structure ParseState where
  title : Option (List Char)
  category : List Char
  content : List Char
  parsed : List (List Char)
  explicitContent : Bool
deriving DecidableEq

/-- The loop body of lines 274-286: dispatch one line on its lower-cased
key.  (The source re-tests `title:`/`category:` in the final `else` branch,
which is redundant there and has no effect.) -/
def processLine (s : ParseState) (line : List Char) : ParseState :=
  let ll := lower line
  if startsWith keyTitle ll then
    { s with title := some (stripText (afterColon line)) }
  else if startsWith keyCategory ll then
    { s with category := stripText (afterColon line) }
  else if startsWith keyContent ll then
    { s with content := stripText (afterColon line), parsed := [], explicitContent := true }
  else if s.explicitContent then s
  else { s with parsed := s.parsed ++ [line] }

/-- Result of the note-creation parse. -/
structure ParsedNote where
  title : Option (List Char)
  category : List Char
  content : List Char
deriving DecidableEq

/-- Initial loop state (lines 266-272): no title, category `'General'`,
content defaulted to the whole message text. -/
def initParseState (text : List Char) : ParseState :=
  { title := none, category := ['G', 'e', 'n', 'e', 'r', 'a', 'l']
    content := text, parsed := [], explicitContent := false }

/-- The mini-format parse of `handle_message_handler` (lines 266-291):
split the message on newlines, fold the loop body, then (lines 288-291)
when no explicit `Content:` line was seen take the joined non-keyed lines,
falling back to the whole text when that is empty after stripping. -/
def parse_note_text (text : List Char) : ParsedNote :=
  let lines := text.splitOn '\n'
  let s := lines.foldl processLine (initParseState text)
  let content :=
    if s.explicitContent then s.content
    else
      let c := stripText (List.intercalate ['\n'] s.parsed)
      if c.isEmpty then text else c
  { title := s.title, category := s.category, content := content }

/-- Title derivation of the `/new` flow (lines 293-296), applied when the
parse produced no (or an empty) title: first 50 characters plus `'...'`
when the content is longer than 50, else the content itself, else
`'Untitled Note'` when that is empty. -/
def derive_title (content : List Char) : List Char :=
  let t := if content.length > 50 then content.take 50 ++ "...".data else content
  if t.isEmpty then "Untitled Note".data else t

/-- Title derivation of the quick-note flow (lines 331-333): same
truncation rule, but the empty fallback is `'Untitled Quick Note'`. -/
def derive_quick_title (text : List Char) : List Char :=
  let t := if text.length > 50 then text.take 50 ++ "...".data else text
  if t.isEmpty then "Untitled Quick Note".data else t

/-- Store effect of the quick-note branch of `handle_message_handler`
(lines 330-335): save the raw text under the derived quick title in
category `'Quick Notes'`. -/
def handle_quick_note (st : Store) (u : Nat) (text : List Char) (now : Nat) :
    Store × Nat :=
  add_user_note st u (derive_quick_title text) text ("Quick Notes".data) now

/-- One store-mutating call of the note API: `add_user_note` or
`delete_user_note` (no intervening `clearAll`). -/
inductive NoteOp where
  | add (user : Nat) (title content category : List Char) (now : Nat)
  | del (user : Nat) (note_id : Nat)

/-- The state after one call. -/
def applyOp (st : Store) : NoteOp → Store
  | .add u t c g now => (add_user_note st u t c g now).1
  | .del u i => (delete_user_note st u i).1

/-- The ids returned to user `u` by the successive `add_user_note` calls in
a call sequence, in call order. -/
def addIds (u : Nat) : Store → List NoteOp → List Nat
  | _, [] => []
  | st, op :: rest =>
    (match op with
      | .add v t c g now => if v = u then [(add_user_note st v t c g now).2] else []
      | .del _ _ => []) ++ addIds u (applyOp st op) rest

/-- The spec-level notion `q` occurs case-insensitively in `s`: the
lower-cased `q` is a contiguous substring of the lower-cased `s`. -/
def ciSubstring (q s : List Char) : Prop :=
  ∃ l r, l ++ lower q ++ r = lower s

theorem alGet_alSet_self (k : Nat) (v : α) (l : List (Nat × α)) :
    alGet k (alSet k v l) = some v := by
  induction l with
  | nil => simp [alGet, alSet]
  | cons p rest ih =>
    obtain ⟨k', v'⟩ := p
    by_cases h : k' = k
    · simp [alSet, alGet, h]
    · simp [alSet, alGet, h, ih]

theorem alGet_alSet_ne {k k' : Nat} (h : k' ≠ k) (v : α) (l : List (Nat × α)) :
    alGet k' (alSet k v l) = alGet k' l := by
  induction l with
  | nil => simp [alGet, alSet, Ne.symm h]
  | cons p rest ih =>
    obtain ⟨k'', v'⟩ := p
    by_cases hk : k'' = k
    · subst hk
      simp [alSet, alGet, h, Ne.symm h]
    · simp [alSet, alGet, hk, ih]

theorem alSet_eq_self {k : Nat} {v : α} {l : List (Nat × α)}
    (h : alGet k l = some v) : alSet k v l = l := by
  induction l with
  | nil => simp [alGet] at h
  | cons p rest ih =>
    obtain ⟨k', v'⟩ := p
    by_cases hk : k' = k
    · subst hk
      simp [alGet] at h
      simp [alSet, h]
    · simp [alGet, hk] at h
      simp [alSet, hk, ih h]

theorem startsWith_iff {p s : List Char} :
    startsWith p s = true ↔ ∃ t, p ++ t = s := by
  induction p generalizing s with
  | nil => simp [startsWith]
  | cons a p ih =>
    cases s with
    | nil => simp [startsWith]
    | cons b s =>
      simp only [startsWith, Bool.and_eq_true, beq_iff_eq, ih, List.cons_append,
        List.cons.injEq]
      constructor
      · rintro ⟨rfl, t, rfl⟩
        exact ⟨t, rfl, rfl⟩
      · rintro ⟨t, rfl, rfl⟩
        exact ⟨rfl, t, rfl⟩

theorem subStr_nil_left (s : List Char) : subStr [] s = true := by
  cases s <;> simp [subStr, startsWith, List.isEmpty]

theorem subStr_iff {q s : List Char} :
    subStr q s = true ↔ ∃ l r, l ++ q ++ r = s := by
  induction s with
  | nil =>
    simp only [subStr, List.isEmpty_iff, List.append_eq_nil]
    constructor
    · rintro rfl
      exact ⟨[], [], by simp⟩
    · rintro ⟨l, r, h⟩
      exact h.1.2
  | cons c rest ih =>
    simp only [subStr, Bool.or_eq_true, startsWith_iff, ih]
    constructor
    · rintro (⟨t, ht⟩ | ⟨l, r, h⟩)
      · exact ⟨[], t, by simpa using ht⟩
      · exact ⟨c :: l, r, by simp [h]⟩
    · rintro ⟨l, r, h⟩
      cases l with
      | nil =>
        left
        exact ⟨r, by simpa using h⟩
      | cons x l =>
        right
        simp only [List.cons_append, List.cons.injEq] at h
        exact ⟨l, r, h.2⟩

theorem sortDesc_pairwise (l : List Note) :
    List.Pairwise byCreatedDesc (List.insertionSort byCreatedDesc l) :=
  List.sorted_insertionSort byCreatedDesc l

theorem sortDesc_filter_key (l : List Note) (k : Nat) :
    (List.insertionSort byCreatedDesc l).filter (fun n => n.created_at == k)
      = l.filter (fun n => n.created_at == k) := by
  have hpair : (l.filter (fun n => n.created_at == k)).Pairwise byCreatedDesc := by
    apply List.pairwise_of_forall_mem_list
    intro a ha b hb
    have ha' := (List.mem_filter.mp ha).2
    have hb' := (List.mem_filter.mp hb).2
    simp only [beq_iff_eq] at ha' hb'
    show b.created_at ≤ a.created_at
    omega
  have hsub : (l.filter (fun n => n.created_at == k)).Sublist
      (List.insertionSort byCreatedDesc l) :=
    List.sublist_insertionSort hpair (List.filter_sublist l)
  have hself : (l.filter (fun n => n.created_at == k)).filter (fun n => n.created_at == k)
      = l.filter (fun n => n.created_at == k) :=
    List.filter_eq_self.mpr (fun a ha => (List.mem_filter.mp ha).2)
  have hsub2 := hsub.filter (fun n => n.created_at == k)
  rw [hself] at hsub2
  have hlen : ((List.insertionSort byCreatedDesc l).filter (fun n => n.created_at == k)).length
      = (l.filter (fun n => n.created_at == k)).length :=
    ((List.perm_insertionSort byCreatedDesc l).filter (fun n => n.created_at == k)).length_eq
  exact (hsub2.eq_of_length hlen.symm).symm

theorem add_user_note_snd (st : Store) (u : Nat) (t c g : List Char) (now : Nat) :
    (add_user_note st u t c g now).2 = nextIdOf st u := by
  unfold add_user_note nextIdOf
  cases h : alGet u st.settings with
  | some n => simp [h]
  | none => simp [h, alGet_alSet_self]

theorem add_user_note_nextId_self (st : Store) (u : Nat) (t c g : List Char) (now : Nat) :
    nextIdOf (add_user_note st u t c g now).1 u = nextIdOf st u + 1 := by
  unfold add_user_note nextIdOf
  cases h : alGet u st.settings with
  | some n => simp [h, alGet_alSet_self]
  | none => simp [h, alGet_alSet_self]

theorem add_user_note_nextId_other (st : Store) (v : Nat) (t c g : List Char) (now : Nat)
    {u : Nat} (h : v ≠ u) :
    nextIdOf (add_user_note st v t c g now).1 u = nextIdOf st u := by
  unfold add_user_note nextIdOf
  cases h2 : alGet v st.settings with
  | some n => simp [h2, alGet_alSet_ne (Ne.symm h)]
  | none => simp [h2, alGet_alSet_ne (Ne.symm h)]

theorem delete_user_note_settings (st : Store) (u i : Nat) :
    (delete_user_note st u i).1.settings = st.settings := by
  unfold delete_user_note
  cases h : alGet u st.notes <;> simp [h]

theorem applyOp_nextId_mono (st : Store) (op : NoteOp) (u : Nat) :
    nextIdOf st u ≤ nextIdOf (applyOp st op) u := by
  cases op with
  | add v t c g now =>
    by_cases h : v = u
    · subst h
      simp [applyOp, add_user_note_nextId_self]
    · simp [applyOp, add_user_note_nextId_other st v t c g now h]
  | del v i =>
    simp [applyOp, nextIdOf, delete_user_note_settings]

theorem addIds_lb (u : Nat) (ops : List NoteOp) :
    ∀ (st : Store), ∀ i ∈ addIds u st ops, nextIdOf st u ≤ i := by
  induction ops with
  | nil => intro st i hi; simp [addIds] at hi
  | cons op rest ih =>
    intro st i hi
    simp only [addIds, List.mem_append] at hi
    rcases hi with hi | hi
    · cases op with
      | add v t c g now =>
        by_cases h : v = u
        · subst h
          simp [add_user_note_snd] at hi
          omega
        · simp [h] at hi
      | del v j => simp at hi
    · calc nextIdOf st u ≤ nextIdOf (applyOp st op) u := applyOp_nextId_mono st op u
        _ ≤ i := ih (applyOp st op) i hi

/-- Claim C1: for every starting store and every sequence of
`add_user_note`/`delete_user_note` calls (no intervening clear), the ids
returned to a given user by the successive `add_user_note` calls are
pairwise strictly increasing in call order — hence strictly increasing and
never repeated — because allocation uses the per-user `next_note_id`
counter, which every creation increments and no deletion decrements. -/
theorem addNote_ids_strictly_increasing (st : Store) (u : Nat) (ops : List NoteOp) :
    List.Pairwise (· < ·) (addIds u st ops) := by
  induction ops generalizing st with
  | nil => simp [addIds]
  | cons op rest ih =>
    cases op with
    | add v t c g now =>
      by_cases h : v = u
      · subst h
        simp only [addIds, if_true, List.singleton_append, List.pairwise_cons]
        refine ⟨?_, ih _⟩
        intro i hi
        have hlb := addIds_lb v rest (applyOp st (.add v t c g now)) i hi
        have hnext : nextIdOf (applyOp st (.add v t c g now)) v = nextIdOf st v + 1 := by
          simp [applyOp, add_user_note_nextId_self]
        rw [add_user_note_snd]
        omega
      · simpa [addIds, h] using ih (applyOp st (.add v t c g now))
    | del v i =>
      simpa [addIds] using ih (applyOp st (.del v i))

/-- Claim C2: for a non-empty note list and page size `NOTES_PER_PAGE = 5`,
the handlers compute `total_pages = ceil(len/5)` (characterised by
`5*(tp-1) < len ≤ 5*tp`), clamp any requested `page : Int` into
`[0, total_pages-1]`, and return the slice
`[clamped*5, clamped*5+5)` (stated element-wise); for 12 notes
`total_pages = 3`.  Determinism is immediate: `paginate` is a pure function
of the list and the page index. -/
theorem pagination_clamps_and_slices (l : List Note) (page : Int) (h : 0 < l.length) :
    (NOTES_PER_PAGE * (total_pages l.length - 1) < l.length ∧
      l.length ≤ NOTES_PER_PAGE * total_pages l.length) ∧
    clamp_page page (total_pages l.length) + 1 ≤ total_pages l.length ∧
    (∀ j, j < NOTES_PER_PAGE →
      (paginate l page)[j]? =
        l[clamp_page page (total_pages l.length) * NOTES_PER_PAGE + j]?) ∧
    total_pages 12 = 3 := by
  have h1 := Nat.div_add_mod (l.length + 4) 5
  have h2 : (l.length + 4) % 5 < 5 := Nat.mod_lt _ (by norm_num)
  refine ⟨?_, ?_, ?_, by decide⟩
  · unfold total_pages NOTES_PER_PAGE
    omega
  · have htp : 1 ≤ total_pages l.length := by
      unfold total_pages NOTES_PER_PAGE
      omega
    unfold clamp_page
    omega
  · intro j hj
    simp only [paginate]
    rw [List.getElem?_take, if_pos hj, List.getElem?_drop]

/-- The 12-element list used to witness the pagination claim. -/
def pageList : List Note :=
  List.replicate 12
    { title := [], content := [], category := [], created_at := 0, note_id := 0 }

/-- Witness for `pagination_clamps_and_slices` at a concrete non-empty list
and an out-of-range negative page index. -/
theorem pagination_clamps_and_slices_witness :
    (paginate pageList (-3))[2]? =
      pageList[clamp_page (-3) (total_pages pageList.length) * NOTES_PER_PAGE + 2]? :=
  (pagination_clamps_and_slices pageList (-3) (by decide)).2.2.1 2 (by decide)

/-- A store holding one note for user 1, used as the empty-query
counterexample state. -/
def stSearch : Store :=
  (add_user_note emptyStore 1 "A".data "B".data "C".data 0).1

/-- Claim C3 counterexample: with one stored note, searching with the empty
query does NOT return the empty result set — Python's `'' in s` is true for
every string, so the empty query matches every note. -/
theorem empty_query_result_not_empty :
    search_user_notes stSearch 1 [] ≠ [] := by decide

/-- Claim C3 (amended): searching with the empty query returns ALL of the
user's notes (sorted by `created_at` descending), i.e. it behaves exactly
like listing, not like match-none. -/
theorem empty_query_returns_all_notes (st : Store) (u : Nat) :
    search_user_notes st u [] = get_user_notes st u := by
  unfold search_user_notes get_user_notes notesOf
  cases h : alGet u st.notes with
  | none => simp
  | some ns =>
    simp only [Option.getD_some]
    have hall : ns.filter (searchMatch (lower [])) = ns :=
      List.filter_eq_self.mpr
        (fun n _ => by simp [searchMatch, lower, subStr_nil_left])
    rw [hall]

/-- A store holding one note titled 'Home Office' for user 1. -/
def stHome : Store :=
  (add_user_note emptyStore 1 "Home Office".data "standing desk".data "Work".data 7).1

/-- Claim C4: for a non-empty query, search returns exactly the user's
stored notes whose title, content or category contains the query as a
case-insensitive substring (stated with the spec-level `ciSubstring`),
the result is sorted by `created_at` descending, and concretely searching
'home' finds the note titled 'Home Office'. -/
theorem search_ci_substring_sorted (st : Store) (u : Nat) (q : List Char) (_hq : q ≠ []) :
    (∀ n, n ∈ search_user_notes st u q ↔
      n ∈ notesOf st u ∧
        (ciSubstring q n.title ∨ ciSubstring q n.content ∨ ciSubstring q n.category)) ∧
    List.Pairwise byCreatedDesc (search_user_notes st u q) ∧
    search_user_notes stHome 1 "home".data = notesOf stHome 1 := by
  refine ⟨?_, ?_, by decide⟩
  · intro n
    unfold search_user_notes notesOf
    cases h : alGet u st.notes with
    | none => simp
    | some ns =>
      simp only [Option.getD_some, List.mem_insertionSort, List.mem_filter]
      constructor
      · rintro ⟨hmem, hmatch⟩
        refine ⟨hmem, ?_⟩
        simpa [searchMatch, ciSubstring, Bool.or_eq_true, subStr_iff, or_assoc] using hmatch
      · rintro ⟨hmem, hmatch⟩
        refine ⟨hmem, ?_⟩
        simpa [searchMatch, ciSubstring, Bool.or_eq_true, subStr_iff, or_assoc] using hmatch
  · unfold search_user_notes
    cases h : alGet u st.notes with
    | none => simp
    | some ns => exact sortDesc_pairwise _

/-- Witness for `search_ci_substring_sorted`: the concrete 'home' search
against the 'Home Office' note, with the non-empty-query hypothesis
discharged at `"home"`. -/
theorem search_ci_substring_sorted_witness :
    search_user_notes stHome 1 "home".data = notesOf stHome 1 :=
  (search_ci_substring_sorted stHome 1 "home".data (by decide)).2.2

/-- A store with three notes for user 1 created at times 1 < 2 < 3, in that
insertion order. -/
def stTimes : Store :=
  let a := (add_user_note emptyStore 1 "a".data "x".data "g".data 1).1
  let b := (add_user_note a 1 "b".data "y".data "g".data 2).1
  (add_user_note b 1 "c".data "z".data "g".data 3).1

/-- Claim C5: listing returns a permutation of the user's stored notes,
sorted by `created_at` descending; notes with equal `created_at` keep their
original stored (insertion) order, stated as: filtering the listing at any
fixed timestamp gives exactly the filtering of the stored list; and for
notes created at 1 < 2 < 3 the listing is [3, 2, 1] by creation time. -/
theorem listNotes_sorted_desc_stable (st : Store) (u : Nat) :
    (get_user_notes st u).Perm (notesOf st u) ∧
    List.Pairwise byCreatedDesc (get_user_notes st u) ∧
    (∀ k, (get_user_notes st u).filter (fun n => n.created_at == k)
        = (notesOf st u).filter (fun n => n.created_at == k)) ∧
    (get_user_notes stTimes 1).map Note.created_at = [3, 2, 1] :=
  ⟨List.perm_insertionSort byCreatedDesc (notesOf st u),
   sortDesc_pairwise (notesOf st u),
   fun k => sortDesc_filter_key (notesOf st u) k,
   by decide⟩

/-- A store where user 1 added one note. -/
def stOne : Store :=
  (add_user_note emptyStore 1 "t".data "c".data "g".data 0).1

/-- `stOne` after deleting that note: the note list is empty but the
per-user counter is already 2. -/
def stDrained : Store :=
  (delete_user_note stOne 1 1).1

/-- Claim C6 counterexample: the clear handler only acts when the user's
note list is truthy (non-empty).  In the reachable state `stDrained`
(add then delete) the list is empty, so clear does not reset the counter
and the next `add_user_note` returns 2, not 1. -/
theorem clear_does_not_reset_on_empty_list :
    (add_user_note (clear_command_handler stDrained 1) 1 "t".data "c".data "g".data 5).2
      ≠ 1 := by decide

/-- Claim C6 (amended): when the user currently has at least one stored
note, the clear handler removes all of the user's notes and resets the
user's counter, so the next `add_user_note` for that user returns id 1;
when the user's note list is empty (or absent) the handler leaves the whole
store unchanged. -/
theorem clear_resets_iff_nonempty (st : Store) (u : Nat) (t c g : List Char) (now : Nat) :
    (notesOf st u ≠ [] →
      notesOf (clear_command_handler st u) u = [] ∧
      nextIdOf (clear_command_handler st u) u = 1 ∧
      (add_user_note (clear_command_handler st u) u t c g now).2 = 1) ∧
    (notesOf st u = [] → clear_command_handler st u = st) := by
  constructor
  · intro hne
    cases hn : alGet u st.notes with
    | none => exact absurd (by simp [notesOf, hn]) hne
    | some ns =>
      have hns : ¬ns.isEmpty = true := by
        simp only [List.isEmpty_iff]
        simpa [notesOf, hn] using hne
      have hclear : clear_command_handler st u =
          { notes := alSet u [] st.notes
            settings := match alGet u st.settings with
              | some _ => alSet u 1 st.settings
              | none => st.settings } := by
        unfold clear_command_handler
        rw [hn]
        simp [hns]
      have hnotes : notesOf (clear_command_handler st u) u = [] := by
        rw [hclear]
        simp [notesOf, alGet_alSet_self]
      have hnext : nextIdOf (clear_command_handler st u) u = 1 := by
        rw [hclear]
        unfold nextIdOf
        cases hs : alGet u st.settings with
        | none => simp [hs]
        | some n => simp [hs, alGet_alSet_self]
      exact ⟨hnotes, hnext, by rw [add_user_note_snd, hnext]⟩
  · intro he
    unfold clear_command_handler
    cases hn : alGet u st.notes with
    | none => rfl
    | some ns =>
      have : ns = [] := by simpa [notesOf, hn] using he
      subst this
      simp

/-- Witness for `clear_resets_iff_nonempty` at the concrete one-note store
`stOne`, whose note list is non-empty. -/
theorem clear_resets_iff_nonempty_witness :
    notesOf (clear_command_handler stOne 1) 1 = [] ∧
    (add_user_note (clear_command_handler stOne 1) 1 "t".data "c".data "g".data 5).2 = 1 := by
  have h := (clear_resets_iff_nonempty stOne 1 "t".data "c".data "g".data 5).1 (by decide)
  exact ⟨h.1, h.2.2⟩

/-- A line is keyed iff its lower-casing starts with one of the three
recognised keys (the conditions of lines 276-280). -/
def isKeyedLine (line : List Char) : Bool :=
  startsWith keyTitle (lower line) || startsWith keyCategory (lower line) ||
    startsWith keyContent (lower line)

theorem content_not_title {l : List Char} (h : startsWith keyContent l = true) :
    startsWith keyTitle l = false := by
  cases l with
  | nil => simp [startsWith, keyContent] at h
  | cons c rest =>
    simp only [keyContent, startsWith, Bool.and_eq_true, beq_iff_eq] at h
    obtain ⟨hc, -⟩ := h
    subst hc
    simp [startsWith, keyTitle, show ('t' == 'c') = false from rfl]

theorem content_not_category {l : List Char} (h : startsWith keyContent l = true) :
    startsWith keyCategory l = false := by
  cases l with
  | nil => simp [startsWith, keyContent] at h
  | cons c rest =>
    cases rest with
    | nil => simp [startsWith, keyContent] at h
    | cons c2 rest2 =>
      simp only [keyContent, startsWith, Bool.and_eq_true, beq_iff_eq] at h
      obtain ⟨hc, ho, -⟩ := h
      subst hc
      subst ho
      simp [startsWith, keyCategory, show ('a' == 'o') = false from rfl]

theorem processLine_content_explicit (s : ParseState) (cl : List Char)
    (h : startsWith keyContent (lower cl) = true) :
    (processLine s cl).explicitContent = true := by
  unfold processLine
  simp only [content_not_title h, content_not_category h, h]
  simp

theorem processLine_nonkeyed_explicit (s : ParseState) (line : List Char)
    (hk : isKeyedLine line = false) (he : s.explicitContent = true) :
    processLine s line = s := by
  simp only [isKeyedLine, Bool.or_eq_false_iff] at hk
  unfold processLine
  simp only [hk.1.1, hk.1.2, hk.2, he]
  simp

theorem foldl_nonkeyed (post : List (List Char)) :
    ∀ s : ParseState, s.explicitContent = true →
      (∀ line ∈ post, isKeyedLine line = false) →
      post.foldl processLine s = s := by
  induction post with
  | nil => intro s _ _; rfl
  | cons line rest ih =>
    intro s he hk
    have h1 : processLine s line = s :=
      processLine_nonkeyed_explicit s line (hk line (by simp)) he
    simp only [List.foldl_cons, h1]
    exact ih s he (fun l hl => hk l (by simp [hl]))

/-- The concrete scenario text of the claim. -/
def c7Text : List Char :=
  "Title: Groceries\nCategory: Shopping\nContent: milk, eggs".data

/-- Claim C7: parsing the scenario text yields title 'Groceries', category
'Shopping', content 'milk, eggs'; and in general, whenever the message
splits into lines `pre ++ [cl] ++ post` where `cl` is a `Content:` line and
every line of `post` is non-keyed, the resulting content is already
determined by the lines up to and including `cl` — the trailing non-keyed
lines are excluded from the content (explicit content wins). -/
theorem parse_scenario_and_explicit_content_wins :
    (parse_note_text c7Text =
      { title := some ("Groceries".data), category := "Shopping".data
        content := "milk, eggs".data }) ∧
    (∀ text pre cl post, text.splitOn '\n' = pre ++ cl :: post →
      startsWith keyContent (lower cl) = true →
      (∀ line ∈ post, isKeyedLine line = false) →
      (parse_note_text text).content
        = ((pre ++ [cl]).foldl processLine (initParseState text)).content) := by
  refine ⟨by decide, ?_⟩
  intro text pre cl post hsplit hcl hpost
  have hsplit' : text.splitOn '\n' = (pre ++ [cl]) ++ post := by
    simpa using hsplit
  have hex : (List.foldl processLine
      (List.foldl processLine (initParseState text) pre) [cl]).explicitContent = true := by
    simpa using processLine_content_explicit
      (List.foldl processLine (initParseState text) pre) cl hcl
  unfold parse_note_text
  rw [hsplit']
  simp only [List.foldl_append]
  rw [foldl_nonkeyed post _ hex hpost, if_pos hex]

/-- Witness inputs for the general part of the parse claim: a `Content:`
line followed by one trailing non-keyed line. -/
def c7WitnessText : List Char := "Content: abc\nextra line".data

/-- Witness for `parse_scenario_and_explicit_content_wins`: its general
part applied to `c7WitnessText` split as `[] ++ ['Content: abc'] ++
['extra line']`, all hypotheses discharged by computation. -/
theorem parse_explicit_content_wins_witness :
    (parse_note_text c7WitnessText).content
      = (([] ++ ["Content: abc".data]).foldl processLine
          (initParseState c7WitnessText)).content :=
  parse_scenario_and_explicit_content_wins.2 c7WitnessText [] "Content: abc".data
    ["extra line".data] (by decide) (by decide) (by decide)

/-- Claim C8: `delete_user_note` returns true iff a note with that id was
stored; after a delete, `get_user_note` for the same id is absent and a
second delete of the same id returns false. -/
theorem delete_get_absent_second_false (st : Store) (u i : Nat) :
    ((delete_user_note st u i).2 = true ↔ ∃ n ∈ notesOf st u, n.note_id = i) ∧
    get_user_note (delete_user_note st u i).1 u i = none ∧
    (delete_user_note (delete_user_note st u i).1 u i).2 = false := by
  unfold delete_user_note get_user_note notesOf
  cases h : alGet u st.notes with
  | none => simp [h]
  | some ns =>
    have hidem : (ns.filter (fun n => !(n.note_id == i))).filter
        (fun n => !(n.note_id == i)) = ns.filter (fun n => !(n.note_id == i)) :=
      List.filter_eq_self.mpr (fun n hn => (List.mem_filter.mp hn).2)
    refine ⟨?_, ?_, ?_⟩
    · simp only [h, Option.getD_some, decide_eq_true_eq,
        List.length_filter_lt_length_iff_exists]
      constructor
      · rintro ⟨n, hn, hni⟩
        refine ⟨n, hn, ?_⟩
        simpa using hni
      · rintro ⟨n, hn, hni⟩
        refine ⟨n, hn, ?_⟩
        simpa using hni
    · simp only [alGet_alSet_self, List.find?_eq_none]
      intro n hn
      have := (List.mem_filter.mp hn).2
      simpa using this
    · simp only [alGet_alSet_self, hidem]
      simp

/-- Witness for `delete_get_absent_second_false` at the one-note store:
the existence side of the iff instantiated and both follow-up facts. -/
theorem delete_get_absent_second_false_witness :
    get_user_note (delete_user_note stOne 1 1).1 1 1 = none ∧
    (delete_user_note (delete_user_note stOne 1 1).1 1 1).2 = false :=
  (delete_get_absent_second_false stOne 1 1).2

/-- Claim C9 counterexample: the quick-note flow is a note creation without
a caller-supplied title, and on empty text its stored title is
'Untitled Quick Note', not the claimed 'Untitled Note'. -/
theorem quick_note_empty_fallback_differs :
    (get_user_note (handle_quick_note emptyStore 1 [] 0).1 1 1).map Note.title
      = some ("Untitled Quick Note".data) ∧
    "Untitled Quick Note".data ≠ "Untitled Note".data := by decide

/-- Claim C9 (amended): a derived title is the full content when it has at
most 50 characters, the first 50 characters followed by '...' when longer;
on empty content the fallback is 'Untitled Note' in the `/new` flow but
'Untitled Quick Note' in the quick-note flow. -/
theorem derived_title_rules (content : List Char) :
    (content = [] → derive_title content = "Untitled Note".data ∧
      derive_quick_title content = "Untitled Quick Note".data) ∧
    (content ≠ [] → content.length ≤ 50 →
      derive_title content = content ∧ derive_quick_title content = content) ∧
    (content.length > 50 →
      derive_title content = content.take 50 ++ "...".data ∧
      derive_quick_title content = content.take 50 ++ "...".data) := by
  refine ⟨?_, ?_, ?_⟩
  · rintro rfl
    exact ⟨by decide, by decide⟩
  · intro hne hle
    have hgt : ¬content.length > 50 := by omega
    have hemp : ¬content.isEmpty = true := by
      simpa [List.isEmpty_iff] using hne
    constructor
    · unfold derive_title
      simp [hgt, hemp]
    · unfold derive_quick_title
      simp [hgt, hemp]
  · intro hgt
    have hemp : ¬(content.take 50 ++ "...".data).isEmpty = true := by
      simp [List.isEmpty_iff]
    constructor
    · unfold derive_title
      simp [hgt, hemp]
    · unfold derive_quick_title
      simp [hgt, hemp]

/-- Witness for `derived_title_rules`: short non-empty content is its own
title in both flows. -/
theorem derived_title_rules_witness :
    derive_title ("hi".data) = "hi".data ∧ derive_quick_title ("hi".data) = "hi".data :=
  (derived_title_rules ("hi".data)).2.1 (by decide) (by decide)

theorem updateFirstCat_not_found {i : Nat} {c : List Char} :
    ∀ {ns : List Note}, (updateFirstCat i c ns).2 = false → (updateFirstCat i c ns).1 = ns := by
  intro ns
  induction ns with
  | nil => intro _; rfl
  | cons n rest ih =>
    intro h
    unfold updateFirstCat at h ⊢
    by_cases hn : n.note_id = i
    · simp [hn] at h
    · simp only [hn, if_false, if_neg hn] at h ⊢
      rw [ih h]

theorem updateFirstCat_length (i : Nat) (c : List Char) :
    ∀ ns : List Note, (updateFirstCat i c ns).1.length = ns.length := by
  intro ns
  induction ns with
  | nil => rfl
  | cons n rest ih =>
    unfold updateFirstCat
    by_cases hn : n.note_id = i
    · simp [hn]
    · simp [hn, ih]

theorem updateFirstCat_getElem (i : Nat) (c : List Char) :
    ∀ (ns : List Note) (j : Nat) (n' : Note), ns[j]? = some n' → n'.note_id ≠ i →
      (updateFirstCat i c ns).1[j]? = some n' := by
  intro ns
  induction ns with
  | nil =>
    intro j n' h _
    simp at h
  | cons n rest ih =>
    intro j n' h hni
    unfold updateFirstCat
    by_cases hn : n.note_id = i
    · rw [if_pos hn]
      cases j with
      | zero =>
        simp only [List.getElem?_cons_zero, Option.some.injEq] at h
        subst h
        exact absurd hn hni
      | succ j =>
        simpa using h
    · rw [if_neg hn]
      cases j with
      | zero => simpa using h
      | succ j =>
        simp only [List.getElem?_cons_succ] at h ⊢
        exact ih j n' h hni

/-- Claim C10: a failing `delete_user_note` or `update_user_note_category`
leaves the whole store unchanged; the two operations never touch
`settings` or any other user's notes entry; a delete leaves exactly the
notes with other ids (in order); an update preserves the list length and
every position holding a note with a different id. -/
theorem delete_update_frame (st : Store) (u i : Nat) (c : List Char) :
    ((delete_user_note st u i).2 = false → (delete_user_note st u i).1 = st) ∧
    ((update_user_note_category st u i c).2 = false →
      (update_user_note_category st u i c).1 = st) ∧
    (delete_user_note st u i).1.settings = st.settings ∧
    (∀ v, v ≠ u → alGet v (delete_user_note st u i).1.notes = alGet v st.notes) ∧
    notesOf (delete_user_note st u i).1 u
      = (notesOf st u).filter (fun n => !(n.note_id == i)) ∧
    (update_user_note_category st u i c).1.settings = st.settings ∧
    (∀ v, v ≠ u → alGet v (update_user_note_category st u i c).1.notes = alGet v st.notes) ∧
    (notesOf (update_user_note_category st u i c).1 u).length = (notesOf st u).length ∧
    (∀ (j : Nat) (n' : Note), (notesOf st u)[j]? = some n' → n'.note_id ≠ i →
      (notesOf (update_user_note_category st u i c).1 u)[j]? = some n') := by
  refine ⟨?_, ?_, delete_user_note_settings st u i, ?_, ?_, ?_, ?_, ?_, ?_⟩
  · unfold delete_user_note
    cases h : alGet u st.notes with
    | none => intro _; rfl
    | some ns =>
      intro hf
      dsimp only at hf ⊢
      simp only [decide_eq_false_iff_not, not_lt] at hf
      have hle := List.length_filter_le (fun n => !(n.note_id == i)) ns
      have hfil : ns.filter (fun n => !(n.note_id == i)) = ns :=
        (List.filter_sublist ns).eq_of_length (le_antisymm hle hf)
      rw [hfil, alSet_eq_self h]
  · unfold update_user_note_category
    cases h : alGet u st.notes with
    | none => intro _; rfl
    | some ns =>
      intro hf
      dsimp only at hf ⊢
      rw [updateFirstCat_not_found hf, alSet_eq_self h]
  · unfold delete_user_note
    cases h : alGet u st.notes with
    | none => intro v hv; rfl
    | some ns => intro v hv; exact alGet_alSet_ne hv _ _
  · unfold delete_user_note
    cases h : alGet u st.notes with
    | none => simp [notesOf, h]
    | some ns => simp [notesOf, h, alGet_alSet_self]
  · unfold update_user_note_category
    cases h : alGet u st.notes with
    | none => rfl
    | some ns => rfl
  · unfold update_user_note_category
    cases h : alGet u st.notes with
    | none => intro v hv; rfl
    | some ns => intro v hv; exact alGet_alSet_ne hv _ _
  · unfold update_user_note_category
    cases h : alGet u st.notes with
    | none => rfl
    | some ns =>
      simp [notesOf, h, alGet_alSet_self, updateFirstCat_length]
  · intro j n' hj hni
    unfold update_user_note_category
    cases h : alGet u st.notes with
    | none => exact hj
    | some ns =>
      have hj' : ns[j]? = some n' := by simpa [notesOf, h] using hj
      simp only [notesOf, alGet_alSet_self, Option.getD_some]
      exact updateFirstCat_getElem i c ns j n' hj' hni

/-- A store where user 1 holds two notes with ids 1 and 2. -/
def stTwo : Store :=
  (add_user_note stOne 1 "t2".data "c2".data "g2".data 1).1

/-- The note with id 2 stored in `stTwo`. -/
def stTwoNote : Note :=
  { title := "t2".data, content := "c2".data, category := "g2".data
    created_at := 1, note_id := 2 }

/-- Witness for `delete_update_frame`: a failing delete leaves the concrete
two-note store unchanged, and updating note 1's category leaves the note at
position 1 (id 2) untouched. -/
theorem delete_update_frame_witness :
    (delete_user_note stTwo 1 99).1 = stTwo ∧
    (notesOf (update_user_note_category stTwo 1 1 "X".data).1 1)[1]? = some stTwoNote := by
  constructor
  · exact (delete_update_frame stTwo 1 99 "X".data).1 (by decide)
  · exact (delete_update_frame stTwo 1 1 "X".data).2.2.2.2.2.2.2.2 1 stTwoNote
      (by decide) (by decide)
